import Mathlib

/-!
Verification of the silence-driven segment extraction and render-planning
engine of `backend/scripts/video_silence_filter.py`.

The numeric analysis of the Python source is embedded shallowly:
* time values and dB values become exact field elements (`ℚ` where the
  claims are about interval algebra, `ℝ` where the code applies
  `sqrt`/`log10`);
* the external media toolchain (ffmpeg subprocess calls) becomes an
  explicit environment of call outcomes;
* Python exceptions become `Except` values.
-/

/-! ## Keep-Interval Planner (`calculate_keep_segments`, lines 280-333)

The Python function probes the video for its total duration and then runs a
pure interval computation; the probe is an external collaborator, so the
embedding takes `total_duration` as an argument.  The loop body

    for silence_start, silence_end in silence_segments:
        segment_end = max(0, silence_start + after_padding)
        if current_pos < segment_end:
            keep_segments.append((current_pos, segment_end))
        current_pos = max(0, silence_end - before_padding)

is `keepLoop`; the trailing `if current_pos < total_duration` append and the
merge pass follow in `calculate_keep_segments`. -/

/-- The cursor loop of `calculate_keep_segments` (lines 308-318): returns the
emitted candidate list together with the final cursor position. -/
def keepLoop {α : Type} [LinearOrderedField α] (bp ap : α) :
    α → List (α × α) → List (α × α) × α
  | cur, [] => ([], cur)
  | cur, (s, e) :: rest =>
    let segEnd := max 0 (s + ap)
    let next := keepLoop bp ap (max 0 (e - bp)) rest
    (if cur < segEnd then (cur, segEnd) :: next.1 else next.1, next.2)

/-- The merge pass of `calculate_keep_segments` (lines 324-331), carrying the
running interval `(s, e)` (the mutable `merged_segments[-1]` of the source):
if the next candidate starts after the running end, the running interval is
final; otherwise its end is extended to the max of the two ends. -/
def mergeAux {α : Type} [LinearOrderedField α] (s e : α) :
    List (α × α) → List (α × α)
  | [] => [(s, e)]
  | (s2, e2) :: rest =>
    if e < s2 then (s, e) :: mergeAux s2 e2 rest
    else mergeAux s (max e e2) rest

/-- `merged_segments` accumulation of `calculate_keep_segments`
(lines 324-331). -/
def mergeSegments {α : Type} [LinearOrderedField α] :
    List (α × α) → List (α × α)
  | [] => []
  | (s, e) :: rest => mergeAux s e rest

/-- `calculate_keep_segments` (lines 280-333) with the probed video duration
passed explicitly.  Empty silence list: keep the whole clip.  Otherwise run
the cursor loop, append the tail interval `(cursor, total)` when the cursor
is strictly before the end, and merge. -/
def calculate_keep_segments {α : Type} [LinearOrderedField α]
    (silence_segments : List (α × α)) (before_padding after_padding total_duration : α) :
    List (α × α) :=
  match silence_segments with
  | [] => [(0, total_duration)]
  | _ :: _ =>
    let r := keepLoop before_padding after_padding 0 silence_segments
    mergeSegments (r.1 ++ if r.2 < total_duration then [(r.2, total_duration)] else [])

/-! ## Render Strategy Selector (`process_video`, lines 371-406)

With exactly one keep interval the source re-probes the duration and checks
`abs(start_time) < 0.1 and abs(end_time - total_duration) < 1.0`; a full
video is stream-copied, otherwise the single segment is re-encoded.  With
any other number of keep intervals it dispatches to `_concat_segments`. -/

/-- The render plan chosen by `process_video`: container-level stream copy,
single re-encoded trim, or multi-segment concatenation. -/
inductive RenderPlan (α : Type) where
  | CopyWhole : RenderPlan α
  | TrimSingle (s e : α) : RenderPlan α
  | ConcatSegments (segs : List (α × α)) : RenderPlan α
deriving DecidableEq

/-- The strategy selection of `process_video` (lines 371-406) as a pure
function of the keep-interval list and the probed total duration. -/
def selectRenderPlan {α : Type} [LinearOrderedField α]
    (keep_segments : List (α × α)) (total_duration : α) : RenderPlan α :=
  match keep_segments with
  | [(s, e)] =>
    if |s| < 1/10 ∧ |e - total_duration| < 1 then RenderPlan.CopyWhole
    else RenderPlan.TrimSingle s e
  | _ => RenderPlan.ConcatSegments keep_segments

/-! ## Volume Profile Builder (`detect_silence_segments`, lines 208-224)

    window_size = int(sample_rate * 0.1)
    hop_size = int(sample_rate * 0.05)
    for i in range(0, len(audio_data) - window_size, hop_size):
        window = audio_data[i:i + window_size]
        rms = np.sqrt(np.mean(window ** 2))
        db_value = 20 * np.log10(max(rms, 1e-10))

Samples are embedded as exact reals; `int(rate * 0.1)` and
`int(rate * 0.05)` become the natural-number divisions `rate / 10` and
`rate / 20` (equal at the 22050 Hz analysis rate).  The Python
`range(0, stop, step)` is `rangeStep stop step` (empty when `stop ≤ 0`). -/

/-- `range(0, stop, step)` of Python for a positive `step`: the multiples of
`step` strictly below `stop`. -/
def rangeStep (stop step : ℕ) : List ℕ :=
  (List.range ((stop + step - 1) / step)).map (fun k => k * step)

/-- dB value of one analysis window (lines 216-219):
`20 * log10(max(sqrt(mean(window^2)), 1e-10))`. -/
noncomputable def windowDb (window : List ℝ) : ℝ :=
  20 * Real.logb 10
    (max (Real.sqrt (((window.map (fun x => x ^ 2)).sum) / window.length)) (1/10^10))

/-- The volume profile of lines 208-224: one `(timestamp, dB)` pair per
window start index, timestamps `i / sample_rate`. -/
noncomputable def volumeProfile (audio_data : List ℝ) (sample_rate : ℕ) :
    List (ℝ × ℝ) :=
  (rangeStep (audio_data.length - sample_rate / 10) (sample_rate / 20)).map
    (fun (i : ℕ) => ((i : ℝ) / (sample_rate : ℝ),
               windowDb ((audio_data.drop i).take (sample_rate / 10))))

/-! ## Silence Interval Detector (`detect_silence_segments`, lines 228-278) -/

/-- The fallback smoother used when scipy is unavailable (lines 240-245): a
zero-initialised output in which only the interior indices
`kernel_size//2 ≤ i < len - kernel_size//2` (with `kernel_size = 5`) receive
the majority vote of the five neighbours `is_silence[i-2 : i+3]`. -/
def majorityVoteSmooth (is_silence : List Bool) : List Bool :=
  (List.range is_silence.length).map (fun i =>
    if 2 ≤ i ∧ i + 2 < is_silence.length then
      decide (2 < ((is_silence.drop (i - 2)).take 5).countP (fun b => b))
    else false)

/-- The two-state scan of lines 248-272 over `(timestamp, silent)` pairs:
`in_silence` and `silence_start` are the mutable loop state; a run closed by
a voiced sample (or by the end of the buffer, at `final_time`) is emitted
when it meets the minimum duration. -/
noncomputable def silenceScanGo (min_silence_duration final_time : ℝ) :
    Bool → ℝ → List (ℝ × Bool) → List (ℝ × ℝ)
  | in_silence, silence_start, [] =>
    if in_silence = true ∧ min_silence_duration ≤ final_time - silence_start then
      [(silence_start, final_time)]
    else []
  | in_silence, silence_start, (time_pos, silent) :: rest =>
    if silent = true ∧ in_silence = false then
      silenceScanGo min_silence_duration final_time true time_pos rest
    else if silent = false ∧ in_silence = true then
      (if min_silence_duration ≤ time_pos - silence_start then
        [(silence_start, time_pos)]
       else []) ++ silenceScanGo min_silence_duration final_time false silence_start rest
    else silenceScanGo min_silence_duration final_time in_silence silence_start rest

/-- `detect_silence_segments` (lines 186-278) from the extracted samples on,
parameterised by the mask smoothing strategy (morphological when scipy is
present, `majorityVoteSmooth` otherwise).  When the profile is empty the
source raises: line 226 evaluates `rms_values.max()`, and numpy's `max` of a
zero-size array raises `ValueError`; this is the `.error` branch. -/
noncomputable def detect_silence_segments (smooth : List Bool → List Bool)
    (audio_data : List ℝ) (sample_rate : ℕ)
    (silence_threshold min_silence_duration : ℝ) :
    Except Unit (List (ℝ × ℝ)) :=
  match volumeProfile audio_data sample_rate with
  | [] => Except.error ()
  | profile =>
    let is_silence := profile.map (fun p => decide (p.2 < silence_threshold))
    let pairs := (profile.map Prod.fst).zip (smooth is_silence)
    Except.ok (silenceScanGo min_silence_duration
      ((audio_data.length : ℝ) / (sample_rate : ℝ)) false 0 pairs)

/-- The outcome of `process_video` up to plan selection: either a render
plan was produced, or an exception from a stage reached the `except` handler
of lines 423-425 (which returns `False` for the video). -/
inductive ProcessOutcome where
  | planned (plan : RenderPlan ℝ) : ProcessOutcome
  | errorCaught : ProcessOutcome

/-- The analysis-and-planning slice of `process_video` (lines 350-406): run
detection, compute keep segments, select the render plan; a raised fault is
caught by the handler of lines 423-425 and reported as failure. -/
noncomputable def process_video_plan (smooth : List Bool → List Bool)
    (audio_data : List ℝ) (sample_rate : ℕ)
    (silence_threshold min_silence_duration before_padding after_padding
      total_duration : ℝ) : ProcessOutcome :=
  match detect_silence_segments smooth audio_data sample_rate
      silence_threshold min_silence_duration with
  | Except.error _ => ProcessOutcome.errorCaught
  | Except.ok silence_segments =>
    ProcessOutcome.planned
      (selectRenderPlan
        (calculate_keep_segments silence_segments before_padding after_padding
          total_duration)
        total_duration)

/-! ## Volume Sampler (`sample_audio_volume`, lines 555-577, and
`calculate_volume_db`, lines 176-184)

`sample_audio_volume` extracts samples for the requested window and, on the
success path, returns `sqrt(mean(calculate_volume_db(samples)^2))`; any
raised fault is caught and replaced by the fixed `-40.0` sentinel.  The
extraction subprocess is external, so the embedding receives its outcome as
an `Option`: `none` is an extraction/analysis fault. -/

/-- `calculate_volume_db` (lines 176-184): per-sample
`20 * log10(max(|x|, 1e-10))`. -/
noncomputable def calculate_volume_db (audio_data : List ℝ) : List ℝ :=
  audio_data.map (fun x => 20 * Real.logb 10 (max |x| (1/10^10)))

/-- RMS of a list of values: `sqrt(mean(values^2))` (`np.sqrt(np.mean(v**2))`). -/
noncomputable def rmsOfList (values : List ℝ) : ℝ :=
  Real.sqrt (((values.map (fun v => v ^ 2)).sum) / values.length)

/-- `sample_audio_volume` (lines 555-577): RMS of the per-sample dB values
on success, the `-40.0` sentinel when extraction or analysis raised. -/
noncomputable def sample_audio_volume (extraction : Option (List ℝ)) : ℝ :=
  match extraction with
  | some audio_data => rmsOfList (calculate_volume_db audio_data)
  | none => -40

/-- Modelled from the spec: §4.5 and §5 of the specification describe the
Volume Sampler as running the Volume Profile Builder (100 ms window / 50 ms
hop) over the requested window and returning the RMS of the per-window dB
values; this definition follows those words, to be compared with the
source's `sample_audio_volume`. -/
noncomputable def sampleVolumeSpecModel (audio_data : List ℝ) (sample_rate : ℕ) : ℝ :=
  rmsOfList ((volumeProfile audio_data sample_rate).map Prod.snd)

/-! ## Multi-segment concatenation (`_concat_with_filter_complex`,
lines 434-486, and `_concat_segments_fallback`, lines 488-553)

The ffmpeg invocations are external; the embedding receives their outcomes
as an environment.  Each `subprocess.run` either completes with an exit
code or raises (e.g. `TimeoutExpired`). -/

/-- Outcome of one external encoder invocation. -/
inductive RunOutcome where
  | exits (code : Int) : RunOutcome
  | raises : RunOutcome
deriving DecidableEq

/-- Whether an invocation completed with exit status zero
(`result.returncode == 0`). -/
def RunOutcome.ok (r : RunOutcome) : Bool :=
  decide (r = RunOutcome.exits 0)

/-- Environment of external encoder call outcomes for a multi-segment
render: the primary filter-graph run, the per-segment extraction runs of
the fallback, and the fallback's final concat-demuxer run. -/
structure EncoderEnv where
  primaryRun : RunOutcome
  extractRun : ℕ → RunOutcome
  concatRun : RunOutcome

/-- The extraction loop of `_concat_segments_fallback` (lines 496-518) over
`n` segments: sequential, raising (`Except.error`) at the first extraction
that fails, as the source's `raise Exception(...)` does. -/
def extractSeq (env : EncoderEnv) : ℕ → Except Unit Unit
  | 0 => Except.ok ()
  | k + 1 =>
    match extractSeq env k with
    | Except.error e => Except.error e
    | Except.ok _ =>
      if (env.extractRun k).ok then Except.ok () else Except.error ()

/-- The `try` block of `_concat_segments_fallback` (lines 493-544): extract
every segment, then run the concat demuxer; a non-zero status raises. -/
def fallbackTry (env : EncoderEnv) (n : ℕ) : Except Unit Bool :=
  match extractSeq env n with
  | Except.error e => Except.error e
  | Except.ok _ => if env.concatRun.ok then Except.ok true else Except.error ()

/-- What a multi-segment render run reports: overall success, how many times
the fallback body ran, and how many temporary working directories were
created and removed. -/
structure ConcatReport where
  success : Bool
  fallbackAttempts : ℕ
  tempDirsCreated : ℕ
  tempDirsRemoved : ℕ
deriving DecidableEq

/-- `_concat_segments_fallback` (lines 488-553): `tempfile.mkdtemp()` before
the `try`, the `except` handler turning any raised fault into `False`, and
the `finally` block removing the temporary directory on both paths. -/
def concat_segments_fallback (env : EncoderEnv) (n : ℕ) : ConcatReport :=
  { success := match fallbackTry env n with
      | Except.ok b => b
      | Except.error _ => false
    fallbackAttempts := 1
    tempDirsCreated := 1
    tempDirsRemoved := 1 }

/-- `_concat_with_filter_complex` (lines 434-486): a zero exit status of the
primary filter-graph run returns `True`; a non-zero status or a raised
fault dispatches to `_concat_segments_fallback` (once, via the `if` of line
475 or the `except` handler of line 483). -/
def concat_with_filter_complex (env : EncoderEnv) (n : ℕ) : ConcatReport :=
  match env.primaryRun with
  | RunOutcome.exits 0 =>
    { success := true, fallbackAttempts := 0, tempDirsCreated := 0, tempDirsRemoved := 0 }
  | _ => concat_segments_fallback env n

/-- A concrete environment in which the primary concatenation exits with
status 1 and every fallback invocation succeeds. -/
def fallbackDemoEnv : EncoderEnv :=
  { primaryRun := RunOutcome.exits 1
    extractRun := fun _ => RunOutcome.exits 0
    concatRun := RunOutcome.exits 0 }

/-! # Theorems -/

/-- Claim C1: for the silence list [(2,4),(6,9)] with beforePadding 0.1,
afterPadding 0.2 and totalDuration 11, `calculate_keep_segments` returns
exactly [0,2.2], [3.9,6.2], [8.9,11]. -/
theorem keep_segments_example :
    calculate_keep_segments [((2 : ℚ), 4), (6, 9)] (1/10) (1/5) 11 =
      [(0, 11/5), (39/10, 31/5), (89/10, 11)] := by
  norm_num [calculate_keep_segments, keepLoop, mergeSegments, mergeAux]

/-- Claim C2: a single keep interval `(s, e)` (a `KeepInterval`, hence with
`0 ≤ s` and `e ≤ totalDuration`) selects CopyWhole exactly when `s < 0.1`
and `totalDuration - e < 1`, and TrimSingle otherwise; more than one keep
interval selects ConcatSegments over the intervals in order.  In particular
`[0.02, 10.95]` against duration 11 selects CopyWhole and `[3, 7]` selects
TrimSingle. -/
theorem renderPlan_selection :
    (∀ s e total : ℚ, 0 ≤ s → e ≤ total →
      ((selectRenderPlan [(s, e)] total = RenderPlan.CopyWhole ↔
          (s < 1/10 ∧ total - e < 1)) ∧
        (¬(s < 1/10 ∧ total - e < 1) →
          selectRenderPlan [(s, e)] total = RenderPlan.TrimSingle s e))) ∧
    (∀ (keep : List (ℚ × ℚ)) (total : ℚ), 2 ≤ keep.length →
      selectRenderPlan keep total = RenderPlan.ConcatSegments keep) ∧
    selectRenderPlan [((1 : ℚ)/50, 219/20)] 11 = RenderPlan.CopyWhole ∧
    selectRenderPlan [((3 : ℚ), 7)] 11 = RenderPlan.TrimSingle 3 7 := by
  refine ⟨?_, ?_, ?_, ?_⟩
  · intro s e total hs he
    have habs : |s| = s := abs_of_nonneg hs
    have habs2 : |e - total| = total - e := by
      rw [abs_sub_comm]
      exact abs_of_nonneg (by linarith)
    constructor
    · simp only [selectRenderPlan, habs, habs2]
      split_ifs with h
      · exact iff_of_true rfl h
      · exact iff_of_false (by simp) h
    · intro h
      simp only [selectRenderPlan, habs, habs2]
      rw [if_neg h]
  · intro keep total h
    match keep with
    | [] => simp at h
    | [_] => simp at h
    | _ :: _ :: _ => rfl
  · simp only [selectRenderPlan]
    rw [if_pos ⟨by rw [abs_lt]; constructor <;> norm_num,
                by rw [abs_lt]; constructor <;> norm_num⟩]
  · simp only [selectRenderPlan]
    rw [if_neg]
    intro h
    rcases h with ⟨h1, _⟩
    rw [abs_of_nonneg (by norm_num : (0:ℚ) ≤ 3)] at h1
    norm_num at h1

/-- Witness for C2 at the concrete single interval `[0.02, 10.95]` with
total duration 11. -/
theorem renderPlan_selection_witness :
    (0 : ℚ) ≤ 1/50 ∧ ((219 : ℚ)/20) ≤ 11 ∧
      (selectRenderPlan [((1 : ℚ)/50, 219/20)] 11 = RenderPlan.CopyWhole ↔
        ((1 : ℚ)/50 < 1/10 ∧ (11 : ℚ) - 219/20 < 1)) :=
  ⟨by norm_num, by norm_num,
    (renderPlan_selection.1 (1/50) (219/20) 11 (by norm_num) (by norm_num)).1⟩

/-- The merge pass never returns an empty list from a nonempty candidate
list. -/
theorem mergeAux_ne_nil {α : Type} [LinearOrderedField α] :
    ∀ (l : List (α × α)) (s e : α), mergeAux s e l ≠ [] := by
  intro l
  induction l with
  | nil => intro s e; simp [mergeAux]
  | cons p rest ih =>
    intro s e
    obtain ⟨s2, e2⟩ := p
    by_cases h : e < s2
    · simp [mergeAux, h]
    · simp only [mergeAux, if_neg h]
      exact ih s (max e e2)

/-- The first interval emitted by the merge pass starts at the running
start. -/
theorem mergeAux_head {α : Type} [LinearOrderedField α] :
    ∀ (l : List (α × α)) (s e : α), ∃ eh, (mergeAux s e l).head? = some (s, eh) := by
  intro l
  induction l with
  | nil => intro s e; exact ⟨e, rfl⟩
  | cons p rest ih =>
    intro s e
    obtain ⟨s2, e2⟩ := p
    by_cases h : e < s2
    · exact ⟨e, by simp [mergeAux, h]⟩
    · simpa only [mergeAux, if_neg h] using ih s (max e e2)

/-- The merge pass output is strictly ordered and pairwise disjoint: every
interval ends strictly before the next one starts. -/
theorem mergeAux_chain {α : Type} [LinearOrderedField α] :
    ∀ (l : List (α × α)) (s e : α),
      List.Chain' (fun a b : α × α => a.2 < b.1) (mergeAux s e l) := by
  intro l
  induction l with
  | nil => intro s e; exact List.chain'_singleton _
  | cons p rest ih =>
    intro s e
    obtain ⟨s2, e2⟩ := p
    by_cases h : e < s2
    · simp only [mergeAux, if_pos h]
      rw [List.chain'_cons']
      refine ⟨?_, ih s2 e2⟩
      intro y hy
      obtain ⟨eh, hh⟩ := mergeAux_head rest s2 e2
      rw [hh] at hy
      cases hy
      exact h
    · simp only [mergeAux, if_neg h]
      exact ih s (max e e2)

/-- On a strictly ordered disjoint list the merge pass is the identity. -/
theorem mergeAux_eq_of_chain {α : Type} [LinearOrderedField α] :
    ∀ (l : List (α × α)) (s e : α),
      (∀ y ∈ l.head?, e < y.1) →
      List.Chain' (fun a b : α × α => a.2 < b.1) l →
      mergeAux s e l = (s, e) :: l := by
  intro l
  induction l with
  | nil => intro s e _ _; rfl
  | cons p rest ih =>
    intro s e hhead hchain
    obtain ⟨s2, e2⟩ := p
    have h : e < s2 := hhead (s2, e2) rfl
    rw [List.chain'_cons'] at hchain
    simp only [mergeAux, if_pos h]
    rw [ih s2 e2 hchain.1 hchain.2]

/-- Bounds are preserved by the merge pass, for any property closed under
extending an interval's end by a max. -/
theorem mergeAux_forall {α : Type} [LinearOrderedField α]
    (P : α × α → Prop)
    (hP : ∀ a b : α × α, P a → P b → P (a.1, max a.2 b.2)) :
    ∀ (l : List (α × α)) (s e : α), P (s, e) → (∀ p ∈ l, P p) →
      ∀ p ∈ mergeAux s e l, P p := by
  intro l
  induction l with
  | nil =>
    intro s e hse _ p hp
    simp only [mergeAux, List.mem_singleton] at hp
    exact hp ▸ hse
  | cons q rest ih =>
    intro s e hse hmem p hp
    obtain ⟨s2, e2⟩ := q
    by_cases h : e < s2
    · simp only [mergeAux, if_pos h, List.mem_cons] at hp
      rcases hp with hp | hp
      · exact hp ▸ hse
      · exact ih s2 e2 (hmem _ (List.mem_cons_self _ _))
          (fun r hr => hmem r (List.mem_cons_of_mem _ hr)) p hp
    · simp only [mergeAux, if_neg h] at hp
      exact ih s (max e e2) (hP (s, e) (s2, e2) hse (hmem _ (List.mem_cons_self _ _)))
        (fun r hr => hmem r (List.mem_cons_of_mem _ hr)) p hp

/-- Claim C8: the merge pass of the Keep-Interval Planner is a fixed point
on its own output: re-merging any merged list returns it unchanged. -/
theorem mergeSegments_idempotent (l : List (ℚ × ℚ)) :
    mergeSegments (mergeSegments l) = mergeSegments l := by
  match l with
  | [] => rfl
  | (s, e) :: rest =>
    show mergeSegments (mergeAux s e rest) = mergeAux s e rest
    have hch := mergeAux_chain rest s e
    match hm : mergeAux s e rest with
    | [] => exact absurd hm (mergeAux_ne_nil rest s e)
    | (a1, a2) :: t =>
      rw [hm] at hch
      rw [List.chain'_cons'] at hch
      show mergeAux a1 a2 t = (a1, a2) :: t
      exact mergeAux_eq_of_chain t a1 a2 hch.1 hch.2

/-- The final cursor of the keep loop on a nonempty silence list is
`max 0 (lastSilenceEnd - beforePadding)`. -/
theorem keepLoop_getLast (bp ap : ℚ) :
    ∀ (sil : List (ℚ × ℚ)) (s e cur : ℚ),
      ∃ q, ((s, e) :: sil).getLast? = some q ∧
        (keepLoop bp ap cur ((s, e) :: sil)).2 = max 0 (q.2 - bp) := by
  intro sil
  induction sil with
  | nil =>
    intro s e cur
    exact ⟨(s, e), rfl, by simp [keepLoop]⟩
  | cons p rest ih =>
    intro s e cur
    obtain ⟨s2, e2⟩ := p
    obtain ⟨q, hq1, hq2⟩ := ih s2 e2 (max 0 (e - bp))
    refine ⟨q, ?_, ?_⟩
    · rw [List.getLast?_cons_cons]
      exact hq1
    · simpa [keepLoop] using hq2

/-- Every candidate interval emitted by the keep loop has a start in
`[0, totalDuration]`, a strictly larger end bounded by
`totalDuration + afterPadding`, and the final cursor stays in
`[0, totalDuration]`. -/
theorem keepLoop_bounds (bp ap T : ℚ) (hbp : 0 ≤ bp) (hap : 0 ≤ ap) :
    ∀ (sil : List (ℚ × ℚ)) (cur : ℚ), 0 ≤ cur → cur ≤ T →
      (∀ p ∈ sil, 0 ≤ p.1 ∧ p.1 ≤ p.2 ∧ p.2 ≤ T) →
      ((∀ p ∈ (keepLoop bp ap cur sil).1,
          0 ≤ p.1 ∧ p.1 ≤ T ∧ p.1 < p.2 ∧ p.2 ≤ T + ap) ∧
        0 ≤ (keepLoop bp ap cur sil).2 ∧ (keepLoop bp ap cur sil).2 ≤ T) := by
  intro sil
  induction sil with
  | nil =>
    intro cur h0 h1 _
    exact ⟨by simp [keepLoop], by simpa [keepLoop] using ⟨h0, h1⟩⟩
  | cons p rest ih =>
    intro cur h0 h1 hmem
    obtain ⟨s, e⟩ := p
    have hs := hmem (s, e) (List.mem_cons_self _ _)
    have hT : (0 : ℚ) ≤ T := le_trans h0 h1
    have hcur0 : (0 : ℚ) ≤ max 0 (e - bp) := le_max_left _ _
    have hcurT : max 0 (e - bp) ≤ T := by
      refine max_le hT ?_
      have : e ≤ T := hs.2.2
      linarith
    have ihr := ih (max 0 (e - bp)) hcur0 hcurT
      (fun r hr => hmem r (List.mem_cons_of_mem _ hr))
    constructor
    · intro q hq
      by_cases hc : cur < max 0 (s + ap)
      · simp only [keepLoop, if_pos hc, List.mem_cons] at hq
        rcases hq with hq | hq
        · subst hq
          refine ⟨h0, h1, hc, ?_⟩
          refine max_le (by linarith) ?_
          have : s ≤ T := le_trans hs.2.1 hs.2.2
          linarith
        · exact ihr.1 q hq
      · simp only [keepLoop, if_neg hc] at hq
        exact ihr.1 q hq
    · simpa only [keepLoop] using ihr.2

/-- Claim C3 (amended): with nonnegative paddings, nonnegative total
duration, and silence intervals ordered, non-overlapping and within
`[0, totalDuration]`, the output of `calculate_keep_segments` is strictly
ordered and pairwise non-overlapping; each interval has
`0 ≤ start ≤ totalDuration` and `start ≤ end ≤ totalDuration +
afterPadding` (the after-padding may push an end past `totalDuration`; ends
are not clamped); and the output is empty only when the silence list is
nonempty and `totalDuration ≤ max 0 (lastSilenceEnd - beforePadding)`,
which can happen with a positive total duration. -/
theorem keep_segments_invariants :
    ∀ (silence : List (ℚ × ℚ)) (bp ap T : ℚ),
      0 ≤ bp → 0 ≤ ap → 0 ≤ T →
      (∀ p ∈ silence, 0 ≤ p.1 ∧ p.1 ≤ p.2 ∧ p.2 ≤ T) →
      List.Chain' (fun a b : ℚ × ℚ => a.2 ≤ b.1) silence →
      List.Chain' (fun a b : ℚ × ℚ => a.2 < b.1)
          (calculate_keep_segments silence bp ap T) ∧
        (∀ p ∈ calculate_keep_segments silence bp ap T,
          0 ≤ p.1 ∧ p.1 ≤ T ∧ p.1 ≤ p.2 ∧ p.2 ≤ T + ap) ∧
        (calculate_keep_segments silence bp ap T = [] →
          ∃ q, silence.getLast? = some q ∧ T ≤ max 0 (q.2 - bp)) := by
  intro silence bp ap T hbp hap hT hmem _
  match silence with
  | [] =>
    refine ⟨List.chain'_singleton _, ?_, by simp [calculate_keep_segments]⟩
    intro p hp
    simp only [calculate_keep_segments, List.mem_singleton] at hp
    subst hp
    exact ⟨le_rfl, hT, hT, by linarith⟩
  | (s, e) :: rest =>
    have hb := keepLoop_bounds bp ap T hbp hap ((s, e) :: rest) 0 le_rfl hT hmem
    set L := keepLoop bp ap 0 ((s, e) :: rest) with hL
    have hcands : ∀ p ∈ L.1 ++ (if L.2 < T then [(L.2, T)] else []),
        0 ≤ p.1 ∧ p.1 ≤ T ∧ p.1 < p.2 ∧ p.2 ≤ T + ap := by
      intro p hp
      rcases List.mem_append.mp hp with hp | hp
      · exact hb.1 p hp
      · by_cases hc : L.2 < T
        · rw [if_pos hc, List.mem_singleton] at hp
          subst hp
          exact ⟨hb.2.1, hb.2.2, hc, by linarith⟩
        · rw [if_neg hc] at hp
          simp at hp
    have hunfold : calculate_keep_segments ((s, e) :: rest) bp ap T =
        mergeSegments (L.1 ++ if L.2 < T then [(L.2, T)] else []) := rfl
    match hcs : L.1 ++ (if L.2 < T then [(L.2, T)] else []) with
    | [] =>
      rw [hunfold, hcs]
      refine ⟨by simp [mergeSegments], by simp [mergeSegments], fun _ => ?_⟩
      have hnotlt : ¬ L.2 < T := by
        intro hc
        rw [if_pos hc] at hcs
        exact absurd (List.append_eq_nil.mp hcs).2 (by simp)
      obtain ⟨q, hq1, hq2⟩ := keepLoop_getLast bp ap rest s e 0
      exact ⟨q, hq1, by rw [← hq2, ← hL]; exact le_of_not_lt hnotlt⟩
    | (a1, a2) :: t =>
      rw [hunfold, hcs]
      rw [hcs] at hcands
      have ha := hcands (a1, a2) (List.mem_cons_self _ _)
      have htmem : ∀ p ∈ t, 0 ≤ p.1 ∧ p.1 ≤ T ∧ p.1 < p.2 ∧ p.2 ≤ T + ap :=
        fun p hp => hcands p (List.mem_cons_of_mem _ hp)
      refine ⟨mergeAux_chain t a1 a2, ?_, fun habs => absurd habs (mergeAux_ne_nil t a1 a2)⟩
      intro p hp
      have := mergeAux_forall
        (fun p : ℚ × ℚ => 0 ≤ p.1 ∧ p.1 ≤ T ∧ p.1 < p.2 ∧ p.2 ≤ T + ap)
        (fun a b hA hB => ⟨hA.1, hA.2.1, lt_max_of_lt_left hA.2.2.1,
          max_le hA.2.2.2 hB.2.2.2⟩)
        t a1 a2 ha htmem p hp
      exact ⟨this.1, this.2.1, le_of_lt this.2.2.1, this.2.2.2⟩

/-- Counterexample to claim C3 as stated: for in-range inputs the planner
can emit an interval whose end exceeds `totalDuration` (the after-padding
is not clamped), and can return an empty list although
`totalDuration > 0`. -/
theorem keep_segments_claim_counterexample :
    calculate_keep_segments [((4 : ℚ), 5)] 0 2 5 = [(0, 6)] ∧
      ¬ ((6 : ℚ) ≤ 5) ∧
      calculate_keep_segments [((0 : ℚ), 5)] 0 0 5 = [] ∧
      ¬ ((5 : ℚ) ≤ 0) := by
  refine ⟨?_, by norm_num, ?_, by norm_num⟩
  · norm_num [calculate_keep_segments, keepLoop, mergeSegments, mergeAux]
  · norm_num [calculate_keep_segments, keepLoop, mergeSegments, mergeAux]

/-- Witness for C3 at the concrete scenario of the specification:
silences [(2,4),(6,9)], paddings 0.1/0.2, total duration 11. -/
theorem keep_segments_invariants_witness :
    List.Chain' (fun a b : ℚ × ℚ => a.2 < b.1)
        (calculate_keep_segments [((2 : ℚ), 4), (6, 9)] (1/10) (1/5) 11) ∧
      ((0 : ℚ), 11/5) ∈ calculate_keep_segments [((2 : ℚ), 4), (6, 9)] (1/10) (1/5) 11 := by
  have h := keep_segments_invariants [((2 : ℚ), 4), (6, 9)] (1/10) (1/5) 11
    (by norm_num) (by norm_num) (by norm_num)
    (by
      intro p hp
      simp only [List.mem_cons, List.not_mem_nil] at hp
      rcases hp with rfl | rfl | hfalse
      · norm_num
      · norm_num
      · exact absurd hfalse (by simp))
    (by constructor <;> norm_num)
  refine ⟨h.1, ?_⟩
  rw [keep_segments_example]
  exact List.mem_cons_self _ _

/-- Counterexample to claim C6 as stated: a buffer holding exactly one full
100 ms window (2205 samples at 22050 Hz) produces an empty profile, because
`range(0, len - window, hop)` excludes its stop value. -/
theorem volumeProfile_exact_window_empty :
    volumeProfile (List.replicate 2205 (0 : ℝ)) 22050 = [] ∧
      (List.replicate 2205 (0 : ℝ)).length = 22050 / 10 := by
  have h1 : (List.replicate 2205 (0 : ℝ)).length = 2205 :=
    List.length_replicate 2205 (0 : ℝ)
  constructor
  · simp only [volumeProfile, rangeStep, h1]
    norm_num
  · rw [h1]

/-- Claim C6 (amended): the Volume Profile Builder returns an empty profile
exactly when the buffer holds at most one full 100 ms window
(`length ≤ sampleRate / 10` samples); for strictly longer buffers it
produces at least one entry, and the k-th entry's timestamp is
`(k * hop) / sampleRate` with the 50 ms hop `sampleRate / 20`. -/
theorem volumeProfile_shape (audio_data : List ℝ) (sample_rate : ℕ)
    (hr : 20 ≤ sample_rate) :
    (volumeProfile audio_data sample_rate = [] ↔
      audio_data.length ≤ sample_rate / 10) ∧
    (∀ (k : ℕ) (hk : k < (volumeProfile audio_data sample_rate).length),
      ((volumeProfile audio_data sample_rate).get ⟨k, hk⟩).1 =
        ((k * (sample_rate / 20) : ℕ) : ℝ) / (sample_rate : ℝ)) := by
  have hH : 0 < sample_rate / 20 := Nat.div_pos hr (by norm_num)
  constructor
  · rw [volumeProfile, List.map_eq_nil_iff, rangeStep, List.map_eq_nil_iff,
      List.range_eq_nil, Nat.div_eq_zero_iff hH]
    omega
  · intro k hk
    simp only [volumeProfile, rangeStep, List.get_eq_getElem, List.getElem_map,
      List.getElem_range]

/-- Witness aid: with 2206 samples at 22050 Hz the profile is nonempty. -/
theorem profile_2206_length_pos :
    0 < (volumeProfile (List.replicate 2206 (0 : ℝ)) 22050).length := by
  have h1 : (List.replicate 2206 (0 : ℝ)).length = 2206 :=
    List.length_replicate 2206 (0 : ℝ)
  simp only [volumeProfile, rangeStep, h1, List.length_map, List.length_range]
  norm_num

/-- Witness for C6 at a buffer of 2206 zero samples at 22050 Hz. -/
theorem volumeProfile_shape_witness :
    (volumeProfile (List.replicate 2206 (0 : ℝ)) 22050 = [] ↔
      (List.replicate 2206 (0 : ℝ)).length ≤ 22050 / 10) ∧
    ((volumeProfile (List.replicate 2206 (0 : ℝ)) 22050).get
        ⟨0, profile_2206_length_pos⟩).1 =
      ((0 * (22050 / 20) : ℕ) : ℝ) / (22050 : ℝ) :=
  ⟨(volumeProfile_shape _ _ (by norm_num)).1,
    (volumeProfile_shape _ _ (by norm_num)).2 0 profile_2206_length_pos⟩

/-- Claim C9: the majority-vote fallback smoother preserves the mask length
and forces the first two and the last two positions to non-silent
regardless of their input values (the loop writes only interior indices of
a zero-initialised output). -/
theorem majorityVote_borders_false :
    (∀ is_silence : List Bool,
      (majorityVoteSmooth is_silence).length = is_silence.length) ∧
    (∀ (is_silence : List Bool) (i : ℕ)
      (hi : i < (majorityVoteSmooth is_silence).length),
      i < 2 ∨ is_silence.length ≤ i + 2 →
      (majorityVoteSmooth is_silence).get ⟨i, hi⟩ = false) := by
  constructor
  · intro is_silence
    simp [majorityVoteSmooth]
  · intro is_silence i hi hborder
    simp only [majorityVoteSmooth, List.get_eq_getElem, List.getElem_map,
      List.getElem_range]
    rw [if_neg]
    rintro ⟨h1, h2⟩
    rcases hborder with h | h
    · omega
    · omega

/-- Witness for C9: on an all-silent mask of five windows the smoothed
first position is non-silent. -/
theorem majorityVote_borders_false_witness :
    (majorityVoteSmooth [true, true, true, true, true]).get
      ⟨0, by norm_num [majorityVoteSmooth]⟩ = false :=
  majorityVote_borders_false.2 [true, true, true, true, true] 0 _
    (Or.inl (by norm_num))

/-- Claim C4 (the code contradicts it): with a sample buffer too short for
one analysis window the volume profile is empty, `detect_silence_segments`
raises (numpy `max` of a zero-size array at line 226) instead of returning
an empty silence list, and `process_video` reports failure instead of
continuing with the no-silence path. -/
theorem detect_empty_profile_raises :
    detect_silence_segments majorityVoteSmooth ([] : List ℝ) 22050
        (-35) (8/10) = Except.error () ∧
      process_video_plan majorityVoteSmooth ([] : List ℝ) 22050
        (-35) (8/10) (1/10) (1/5) 11 = ProcessOutcome.errorCaught := by
  constructor
  · rfl
  · rfl

/-- Claim C5: whenever the primary filter-graph concatenation does not exit
with status zero (non-zero status or raised fault), the fallback body runs
exactly once, the multi-segment render succeeds exactly when the fallback
body succeeds, and the fallback's temporary working directory is removed on
every exit path; a successful primary run never triggers the fallback. -/
theorem concat_fallback_exactly_once :
    ∀ (env : EncoderEnv) (n : ℕ),
      (env.primaryRun.ok = false →
        (concat_with_filter_complex env n).fallbackAttempts = 1 ∧
        ((concat_with_filter_complex env n).success = true ↔
          fallbackTry env n = Except.ok true) ∧
        (concat_with_filter_complex env n).tempDirsRemoved =
          (concat_with_filter_complex env n).tempDirsCreated) ∧
      (env.primaryRun.ok = true →
        (concat_with_filter_complex env n).fallbackAttempts = 0) ∧
      (concat_segments_fallback env n).tempDirsRemoved =
        (concat_segments_fallback env n).tempDirsCreated := by
  intro env n
  have hsucc : ((concat_segments_fallback env n).success = true ↔
      fallbackTry env n = Except.ok true) := by
    unfold concat_segments_fallback
    match hft : fallbackTry env n with
    | Except.ok true => simp
    | Except.ok false => simp
    | Except.error e => simp
  refine ⟨?_, ?_, rfl⟩
  · intro h
    have hne : concat_with_filter_complex env n = concat_segments_fallback env n := by
      unfold concat_with_filter_complex
      split
      · rename_i heq
        rw [heq] at h
        simp [RunOutcome.ok] at h
      · rfl
    rw [hne]
    exact ⟨rfl, hsucc, rfl⟩
  · intro h
    unfold concat_with_filter_complex
    split
    · rfl
    · rename_i hne
      exact absurd (of_decide_eq_true h) hne

/-- Witness for C5: primary exits with status 1, all fallback invocations
succeed, three segments. -/
theorem concat_fallback_exactly_once_witness :
    RunOutcome.ok fallbackDemoEnv.primaryRun = false ∧
      (concat_with_filter_complex fallbackDemoEnv 3).fallbackAttempts = 1 ∧
      (concat_with_filter_complex fallbackDemoEnv 3).success = true := by
  have h : RunOutcome.ok fallbackDemoEnv.primaryRun = false := rfl
  have hk := (concat_fallback_exactly_once fallbackDemoEnv 3).1 h
  exact ⟨h, hk.1, hk.2.1.mpr rfl⟩

/-- `log10(0.1) = -1`. -/
theorem logb_ten_of_tenth : Real.logb 10 (1/10) = -1 := by
  rw [show (1/10 : ℝ) = (10 : ℝ)⁻¹ by norm_num, Real.logb_inv,
    Real.logb_self_eq_one (by norm_num)]

/-- `sqrt(0.01) = 0.1`. -/
theorem sqrt_hundredth : Real.sqrt (1/100) = 1/10 := by
  rw [show (1/100 : ℝ) = (1/10)^2 by norm_num, Real.sqrt_sq (by norm_num)]

/-- Per-sample dB of the buffer `[0.1, 0.1, 1]`. -/
theorem calc_volume_db_example :
    calculate_volume_db [1/10, 1/10, 1] = [-20, -20, 0] := by
  simp only [calculate_volume_db, List.map_cons, List.map_nil]
  rw [show |(1/10 : ℝ)| = 1/10 from abs_of_nonneg (by norm_num),
    show |(1 : ℝ)| = 1 from abs_of_nonneg (by norm_num),
    max_eq_left (by norm_num : (1/10^10 : ℝ) ≤ 1/10),
    max_eq_left (by norm_num : (1/10^10 : ℝ) ≤ 1),
    logb_ten_of_tenth, Real.logb_one]
  norm_num

/-- The sampler's success value on `[0.1, 0.1, 1]`. -/
theorem sample_volume_example :
    sample_audio_volume (some [1/10, 1/10, 1]) = Real.sqrt (800/3) := by
  show rmsOfList (calculate_volume_db [1/10, 1/10, 1]) = _
  rw [calc_volume_db_example]
  simp only [rmsOfList, List.map_cons, List.map_nil, List.sum_cons,
    List.sum_nil, List.length_cons, List.length_nil]
  norm_num

/-- dB of the single full analysis window of that buffer at 20 Hz. -/
theorem windowDb_example : windowDb [1/10, 1/10] = -20 := by
  have harg : windowDb [1/10, 1/10] =
      20 * Real.logb 10 (max (Real.sqrt (1/100)) (1/10^10)) := by
    simp only [windowDb, List.map_cons, List.map_nil, List.sum_cons,
      List.sum_nil, List.length_cons, List.length_nil]
    norm_num
  rw [harg, sqrt_hundredth,
    max_eq_left (by norm_num : (1/10^10 : ℝ) ≤ 1/10), logb_ten_of_tenth]
  norm_num

/-- The volume profile of `[0.1, 0.1, 1]` at a 20 Hz analysis rate: one
window `[0.1, 0.1]` at timestamp 0. -/
theorem volumeProfile_small_example :
    volumeProfile [1/10, 1/10, 1] 20 = [(0, -20)] := by
  have h : rangeStep (([(1/10 : ℝ), 1/10, 1]).length - 20/10) (20/20) = [0] := by
    norm_num [rangeStep]
    rfl
  simp only [volumeProfile, h, List.map_cons, List.map_nil]
  have htake : (([(1/10 : ℝ), 1/10, 1].drop 0).take (20/10)) = [1/10, 1/10] := rfl
  rw [htake, windowDb_example]
  norm_num

/-- The spec-modelled per-window sampler value on `[0.1, 0.1, 1]` at
20 Hz. -/
theorem spec_model_example :
    sampleVolumeSpecModel [1/10, 1/10, 1] 20 = 20 := by
  unfold sampleVolumeSpecModel
  rw [volumeProfile_small_example]
  show rmsOfList [(-20 : ℝ)] = 20
  unfold rmsOfList
  norm_num
  rw [show (400 : ℝ) = 20^2 by norm_num]
  exact Real.sqrt_sq (by norm_num)

/-- Counterexample to claim C7 as stated: on the buffer `[0.1, 0.1, 1]`
(analysis rate 20 Hz) the spec's per-window description yields 20 dB while
the source's `sample_audio_volume` yields `sqrt(800/3)` — the code
aggregates per-sample dB values, not the per-window profile of the Volume
Profile Builder. -/
theorem sample_volume_not_per_window :
    sampleVolumeSpecModel [1/10, 1/10, 1] 20 = 20 ∧
      sample_audio_volume (some [1/10, 1/10, 1]) ≠
        sampleVolumeSpecModel [1/10, 1/10, 1] 20 := by
  refine ⟨spec_model_example, ?_⟩
  rw [sample_volume_example, spec_model_example]
  intro h
  have h2 := Real.sq_sqrt (by norm_num : (0:ℝ) ≤ 800/3)
  rw [h] at h2
  norm_num at h2

/-- Claim C7 (amended): `sample_audio_volume` returns, on success, the RMS
of the per-sample dB values (`calculate_volume_db` applied to each raw
sample) — not the per-window profile values and not the RMS of raw samples
— and on any extraction or analysis fault returns the fixed sentinel
`-40.0`. -/
theorem sample_audio_volume_characterization :
    (∀ xs : List ℝ, sample_audio_volume (some xs) =
      Real.sqrt ((((calculate_volume_db xs).map (fun d => d ^ 2)).sum) /
        (xs.length : ℝ))) ∧
    sample_audio_volume none = -40 ∧
    sample_audio_volume (some [1/10, 1/10, 1]) ≠ rmsOfList [1/10, 1/10, 1] := by
  refine ⟨?_, rfl, ?_⟩
  · intro xs
    have hlen : ((calculate_volume_db xs).length : ℝ) = (xs.length : ℝ) := by
      simp [calculate_volume_db]
    show rmsOfList (calculate_volume_db xs) = _
    unfold rmsOfList
    rw [hlen]
  · rw [sample_volume_example]
    have hraw : rmsOfList [(1/10 : ℝ), 1/10, 1] = Real.sqrt (17/50) := by
      unfold rmsOfList
      norm_num
    rw [hraw]
    intro h
    have h1 := Real.sq_sqrt (by norm_num : (0:ℝ) ≤ 800/3)
    rw [h, Real.sq_sqrt (by norm_num : (0:ℝ) ≤ 17/50)] at h1
    norm_num at h1

/-- Claim C10: the success path of `sample_audio_volume` is a square root
and hence non-negative, so a negative return can only be the `-40.0` fault
sentinel. -/
theorem sample_audio_volume_nonneg :
    (∀ xs : List ℝ, xs ≠ [] → 0 ≤ sample_audio_volume (some xs)) ∧
    (∀ ext : Option (List ℝ), sample_audio_volume ext < 0 →
      ext = none ∧ sample_audio_volume ext = -40) := by
  constructor
  · intro xs _
    exact Real.sqrt_nonneg _
  · intro ext h
    match ext with
    | some xs => exact absurd h (not_lt.mpr (Real.sqrt_nonneg _))
    | none => exact ⟨rfl, rfl⟩

/-- Witness for C10: a one-sample buffer gives a non-negative value, and
the fault path gives the sentinel. -/
theorem sample_audio_volume_nonneg_witness :
    (0 : ℝ) ≤ sample_audio_volume (some [1]) ∧
      sample_audio_volume (none : Option (List ℝ)) = -40 := by
  refine ⟨sample_audio_volume_nonneg.1 [1] (by simp), ?_⟩
  exact (sample_audio_volume_nonneg.2 none (by norm_num [sample_audio_volume])).2
